import Mathlib

set_option maxRecDepth 4000

/-!
Shallow embedding of the MinuteMate backend (src/app.py) over `List Char`
strings.  Python text values are modelled as lists of characters; every
definition follows the corresponding Python code line by line.  All inputs in
scope are ASCII, so Python `str.lower`, `str.strip` and `len` coincide with
the ASCII-level functions defined here.
-/

namespace MinuteMate

/-- Whitespace characters stripped by Python `str.strip()`. -/
def isSpaceChar (c : Char) : Bool :=
  c == ' ' || c == '\t' || c == '\n' || c == '\r' || c == '\x0b' || c == '\x0c'

/-- Sentence-terminal punctuation used in the regex `[.!?]+` of
`generate_minutes_from_transcript` (src/app.py line 227). -/
def isTermChar (c : Char) : Bool :=
  c == '.' || c == '!' || c == '?'

/-- ASCII lowering of a character, as Python `str.lower()` acts on ASCII. -/
def lowerChar (c : Char) : Char :=
  if 'A' ≤ c ∧ c ≤ 'Z' then Char.ofNat (c.toNat + 32) else c

/-- ASCII lowering of a string, Python `sentence.lower()`. -/
def toLowerAscii (s : List Char) : List Char :=
  s.map lowerChar

/-- Python `str.strip()`: drop whitespace from both ends. -/
def trim (s : List Char) : List Char :=
  ((s.dropWhile isSpaceChar).reverse.dropWhile isSpaceChar).reverse

/-- Split a list at every character satisfying `p`, keeping (possibly empty)
fragments.  `re.split` with the pattern `[.!?]+` collapses runs of
terminators, but the extra empty fragments produced by per-character
splitting are removed by the `if s.strip()` filter below, so the composite
`sentencesOf` agrees with the Python line 227. -/
def splitP (p : Char → Bool) : List Char → List (List Char)
  | [] => [[]]
  | c :: rest =>
    if p c then [] :: splitP p rest
    else
      match splitP p rest with
      | [] => [[c]]
      | h :: t => (c :: h) :: t

/-- `[s.strip() for s in re.split(r'[.!?]+', transcript) if s.strip()]`
(src/app.py line 227 and line 256). -/
def sentencesOf (t : List Char) : List (List Char) :=
  ((splitP isTermChar t).map trim).filter (fun s => !s.isEmpty)

/-- src/app.py line 230. -/
def MAX_CHARS_PER_CHUNK : Nat := 4000

/-- The chunk-building loop of src/app.py lines 231-243, including the final
flush.  `cur` is the running `current_chunk`. -/
def chunkLoop (maxc : Nat) : List (List Char) → List Char → List (List Char)
  | [], cur => if cur.isEmpty then [] else [trim cur]
  | s :: rest, cur =>
    if cur.length + s.length > maxc then
      (if cur.isEmpty then [] else [trim cur]) ++ chunkLoop maxc rest s
    else
      chunkLoop maxc rest (if cur.isEmpty then s else cur ++ ' ' :: s)

/-- The chunking step of `generate_minutes_from_transcript`. -/
def make_chunks (t : List Char) : List (List Char) :=
  chunkLoop MAX_CHARS_PER_CHUNK (sentencesOf t) []

/-- `leadsWith needle hay` holds when `hay` starts with `needle`. -/
def leadsWith : List Char → List Char → Bool
  | [], _ => true
  | _ :: _, [] => false
  | n :: ns, h :: hs => n == h && leadsWith ns hs

/-- Python substring test `needle in hay`. -/
def containsSub (hay needle : List Char) : Bool :=
  match hay with
  | [] => leadsWith needle []
  | _ :: hs => leadsWith needle hay || containsSub hs needle

/-- src/app.py line 255. -/
def action_words : List (List Char) :=
  [("will").data, ("need to").data, ("should").data, ("must").data,
   ("going to").data, ("plan to").data]

/-- `any(word in sentence.lower() for word in action_words)`
(src/app.py line 259). -/
def sentence_is_action (s : List Char) : Bool :=
  action_words.any (fun w => containsSub (toLowerAscii s) w)

/-- Action items collected from one chunk (src/app.py lines 256-260). -/
def chunk_actions (c : List Char) : List (List Char) :=
  (sentencesOf c).filter sentence_is_action

/-- `all_action_items` accumulated over the chunk loop
(src/app.py lines 248-260). -/
def all_action_items (t : List Char) : List (List Char) :=
  (make_chunks t).flatMap chunk_actions

/-! ### A small backtracking regex engine

`re.findall(date_pattern, chunk)` (src/app.py lines 263-264) is embedded with
an executable engine whose search order matches Python `re`: ordered
alternation, greedy bounded repetition of character classes, leftmost
non-overlapping matches.  The date pattern has no capturing groups, so
`findall` returns whole matches. -/

/-- Word characters for the `\b` assertion (ASCII fragment of Python
`\w`). -/
def isWordChar (c : Char) : Bool :=
  ('a' ≤ c && c ≤ 'z') || ('A' ≤ c && c ≤ 'Z') || ('0' ≤ c && c ≤ '9') || c == '_'

/-- Regular-expression syntax needed by the date pattern.  `repCls` is a
greedy repetition `{min,max}` of a character class; `max = none` means
unbounded (`*`). -/
inductive RE where
  | eps : RE
  | wb : RE
  | lit : List Char → RE
  | cls : (Char → Bool) → RE
  | seq : RE → RE → RE
  | alt : RE → RE → RE
  | repCls : (Char → Bool) → Nat → Option Nat → RE

/-- Whether `\b` holds between previous character `p` and the rest `s`. -/
def atBoundary (p : Option Char) (s : List Char) : Bool :=
  let pw := match p with | none => false | some c => isWordChar c
  let nw := match s.head? with | none => false | some c => isWordChar c
  pw != nw

/-- Consume the literal `l` from the front of `s`, tracking the previous
character for later `\b` tests. -/
def dropLit : List Char → Option Char → List Char → Option (Option Char × List Char)
  | [], p, s => some (p, s)
  | _ :: _, _, [] => none
  | n :: ns, _, h :: hs => if n == h then dropLit ns (some h) hs else none

/-- All ways a pattern can match a front segment of `s`, as
(previous character, remaining suffix) pairs in backtracking priority order:
alternatives left first, repetitions longest first.  The head of this list is
the match Python `re` commits to. -/
def reMatch : RE → Option Char → List Char → List (Option Char × List Char)
  | RE.eps, p, s => [(p, s)]
  | RE.wb, p, s => if atBoundary p s then [(p, s)] else []
  | RE.lit l, p, s =>
    match dropLit l p s with
    | some r => [r]
    | none => []
  | RE.cls f, _, s =>
    match s with
    | [] => []
    | c :: rest => if f c then [(some c, rest)] else []
  | RE.seq a b, p, s => (reMatch a p s).flatMap (fun r => reMatch b r.1 r.2)
  | RE.alt a b, p, s => reMatch a p s ++ reMatch b p s
  | RE.repCls f mn mx, p, s =>
    let run := (s.takeWhile f).length
    let cap := match mx with | none => run | some m => min run m
    if cap < mn then []
    else
      ((List.range (cap + 1 - mn)).map (fun i => cap - i)).map (fun n =>
        (match (s.take n).getLast? with | none => p | some c => some c, s.drop n))

/-- Scan for the leftmost match at or after the current position, returning
matched text and continuation state; non-overlapping scan of `re.findall`. -/
def reFindAux (r : RE) : Nat → Option Char → List Char → List (List Char)
  | 0, _, _ => []
  | fuel + 1, p, s =>
    match (reMatch r p s).head? with
    | some q =>
      let consumed := s.length - q.2.length
      if consumed = 0 then
        match s with
        | [] => []
        | c :: rest => reFindAux r fuel (some c) rest
      else
        s.take consumed :: reFindAux r fuel q.1 q.2
    | none =>
      match s with
      | [] => []
      | c :: rest => reFindAux r fuel (some c) rest

/-- `re.findall(pattern, s)` for group-free patterns. -/
def reFindAll (r : RE) (s : List Char) : List (List Char) :=
  reFindAux r (s.length + 1) none s

/-- Digits, slash-or-dash, `[a-z]`, comma classes of the date pattern. -/
def isDigitChar (c : Char) : Bool := '0' ≤ c && c ≤ '9'

def isSlashDash (c : Char) : Bool := c == '/' || c == '-'

def isLowerAz (c : Char) : Bool := 'a' ≤ c && c ≤ 'z'

/-- Month-name alternation `(?:Jan|Feb|...|Dec)` as an ordered `alt` chain. -/
def monthAlt : RE :=
  [("Jan").data, ("Feb").data, ("Mar").data, ("Apr").data, ("May").data,
   ("Jun").data, ("Jul").data, ("Aug").data, ("Sep").data, ("Oct").data,
   ("Nov").data].foldr (fun m acc => RE.alt (RE.lit m) acc)
    (RE.lit ("Dec").data)

/-- The date pattern of src/app.py line 263:
numeric dates `\b\d{1,2}[\x2f-]\d{1,2}[\x2f-]\d{2,4}\b` (slash or dash
separated) or month-name dates
`\b(?:Jan|...|Dec)[a-z]* \d{1,2},? \d{4}\b`. -/
def date_pattern : RE :=
  RE.alt
    (RE.seq RE.wb (RE.seq (RE.repCls isDigitChar 1 (some 2))
      (RE.seq (RE.cls isSlashDash) (RE.seq (RE.repCls isDigitChar 1 (some 2))
        (RE.seq (RE.cls isSlashDash)
          (RE.seq (RE.repCls isDigitChar 2 (some 4)) RE.wb))))))
    (RE.seq RE.wb (RE.seq monthAlt (RE.seq (RE.repCls isLowerAz 0 none)
      (RE.seq (RE.lit [' ']) (RE.seq (RE.repCls isDigitChar 1 (some 2))
        (RE.seq (RE.repCls (fun c => c == ',') 0 (some 1))
          (RE.seq (RE.lit [' '])
            (RE.seq (RE.repCls isDigitChar 4 (some 4)) RE.wb))))))))

/-- `all_dates` accumulated over the chunk loop (src/app.py lines 262-265). -/
def all_dates (t : List Char) : List (List Char) :=
  (make_chunks t).flatMap (fun c => reFindAll date_pattern c)

/-! ### Rendering the minutes document (src/app.py lines 267-308) -/

/-- `transcript[:200] + "..."` when over 200 characters, else the transcript
unchanged (src/app.py lines 268-271). -/
def summary_of (t : List Char) : List Char :=
  if t.length > 200 then t.take 200 ++ ("...").data else t

/-- Decimal rendering of a count, Python `str(n)` inside an f-string. -/
def natStr (n : Nat) : List Char :=
  (Nat.repr n).data

/-- The numbered lines `f"{i}. {item}\n"` emitted by the two `enumerate`
loops (src/app.py lines 282-283 and 293-294). -/
def renderNumbered : Nat → List (List Char) → List Char
  | _, [] => []
  | i, x :: xs => natStr i ++ (". ").data ++ x ++ '\n' :: renderNumbered (i + 1) xs

/-- `', '.join(xs)` (src/app.py line 304). -/
def joinCommaSp : List (List Char) → List Char
  | [] => []
  | [x] => x
  | x :: y :: xs => x ++ (", ").data ++ joinCommaSp (y :: xs)

/-- Placeholder emitted when no action item was found (src/app.py line 286). -/
def NO_ACTIONS_LINE : List Char := ("• No specific action items identified\n").data

/-- Placeholder emitted when no date was found (src/app.py line 297). -/
def NO_DATES_LINE : List Char := ("• No specific dates mentioned\n").data

/-- The action-items body: up to 5 numbered items, or the placeholder line
(src/app.py lines 282-286). -/
def actionLines (items : List (List Char)) : List Char :=
  renderNumbered 1 (items.take 5) ++ (if items.isEmpty then NO_ACTIONS_LINE else [])

/-- The dates body: up to 3 numbered dates, or the placeholder line
(src/app.py lines 293-297). -/
def dateLines (ds : List (List Char)) : List Char :=
  renderNumbered 1 (ds.take 3) ++ (if ds.isEmpty then NO_DATES_LINE else [])

/-- `generate_minutes_from_transcript` (src/app.py lines 223-308).  The
current-date header string `datetime.now().strftime('%B %d, %Y')` is the
injected parameter `today`; everything else is a function of the
transcript.  The f-string skeleton is reproduced segment by segment. -/
def generate_minutes_from_transcript (t today : List Char) : List Char :=
  ("Meeting Minutes - ").data ++ today ++
  ("\n\n📋 Summary (").data ++ natStr (summary_of t).length ++ (" words):\n").data ++
  summary_of t ++
  ("\n\n✅ Action Items (").data ++ natStr (all_action_items t).length ++ (" found):\n").data ++
  actionLines (all_action_items t) ++
  ("\n\n📅 Dates Mentioned (").data ++ natStr (all_dates t).length ++ (" found):\n").data ++
  dateLines (all_dates t) ++
  ("\n\n🔍 Key Topics:\n• Meeting duration: ").data ++ natStr (sentencesOf t).length ++
  (" main discussion points\n• Transcript chunks: ").data ++ natStr (make_chunks t).length ++
  (" segments processed\n• Focus areas: ").data ++ joinCommaSp ((sentencesOf t).take 3) ++
  ("\n• Next steps: Review action items and set deadlines\n").data

/-! ### Session state and the HTTP handlers (src/app.py lines 21-133) -/

/-- The `current_session` dict fields relevant to the lifecycle claims. -/
structure Session where
  id : List Char
  start_time : List Char
  deriving DecidableEq, Repr

/-- The module-level globals of src/app.py lines 22-26. -/
structure AppState where
  current_session : Option Session
  is_recording : Bool
  recording_start_time : Option Nat
  deriving DecidableEq, Repr

/-- An HTTP response abstracted as status code plus message text: the
`message` field on success, the `error` field on failure. -/
structure HttpResp where
  code : Nat
  body : List Char
  deriving DecidableEq, Repr

/-- `start_recording` (src/app.py lines 82-111).  `newId` and `newStartIso`
stand for the timestamp-derived strings and `now` for `time.time()`. -/
def start_recording (st : AppState) (newId newStartIso : List Char) (now : Nat) :
    HttpResp × AppState :=
  if st.is_recording then
    (⟨400, ("Already recording").data⟩, st)
  else
    (⟨200, ("Recording started").data⟩,
      ⟨some ⟨newId, newStartIso⟩, true, some now⟩)

/-- `stop_recording` (src/app.py lines 113-133); joining the watcher thread
has no effect on the modelled state. -/
def stop_recording (st : AppState) : HttpResp × AppState :=
  if !st.is_recording then
    (⟨400, ("Not recording").data⟩, st)
  else
    (⟨200, ("Recording stopped").data⟩, { st with is_recording := false })

/-- The `status` string and reported session id of `get_status`
(src/app.py lines 68-80): "recording" plus the current session id when
`is_recording and current_session` holds, else "idle". -/
def get_status (st : AppState) : List Char × Option (List Char) :=
  if st.is_recording && st.current_session.isSome then
    (("recording").data, st.current_session.map Session.id)
  else (("idle").data, none)

/-! ### The silence-detection watcher (src/app.py lines 27 and 38-56)

The loop sleeps one second and then tests `time.time() - recording_start_time
>= SILENCE_THRESHOLD`, flipping `is_recording` to `False` once it holds.  It
is modelled in discrete time: `watcherCheck t` is the loop body executed at
integer elapsed time `t`, and `recordingAfter n` is the flag after the checks
at times `1, 2, ..., n` when no `stop()` intervenes. -/

def SILENCE_THRESHOLD : Nat := 30

/-- One iteration of the watcher loop at elapsed time `t`. -/
def watcherCheck (t : Nat) (rec : Bool) : Bool :=
  if rec && decide (SILENCE_THRESHOLD ≤ t) then false else rec

/-- The recording flag after `n` seconds of an un-stopped session. -/
def recordingAfter : Nat → Bool
  | 0 => true
  | n + 1 => watcherCheck (n + 1) (recordingAfter n)

/-- `/status` as seen `n` seconds into an un-stopped session. -/
def statusAfter (n : Nat) : List Char :=
  if recordingAfter n then ("recording").data else ("idle").data

/-! ### The transcribe handler (src/app.py lines 135-177)

Only the control flow relevant to temporary-file lifetime is modelled.  The
external pieces are an environment: whether the request carries an `audio`
file, whether the Whisper model loaded at startup, and the outcome of
`model.transcribe`. -/

/-- Outcome of the external `model.transcribe` call. -/
inductive ModelOutcome where
  | ok (text lang : List Char)
  | raised (msg : List Char)
  deriving DecidableEq, Repr

structure TranscribeEnv where
  hasAudioFile : Bool
  modelLoaded : Bool
  modelOutcome : ModelOutcome
  deriving DecidableEq, Repr

/-- Observable effects of one `transcribe_audio` request. -/
structure TranscribeResult where
  code : Nat
  tempFileCreated : Bool
  tempFileDeleted : Bool
  deriving DecidableEq, Repr

/-- `transcribe_audio` control flow (src/app.py lines 135-177): the temp file
is written before the model check; `os.unlink` (line 163) runs only on the
straight-line success path — the `model is None` return (line 155) and the
`except` handler (lines 175-177) return without deleting it. -/
def transcribe_audio (env : TranscribeEnv) : TranscribeResult :=
  if !env.hasAudioFile then ⟨400, false, false⟩
  else if !env.modelLoaded then ⟨500, true, false⟩
  else
    match env.modelOutcome with
    | ModelOutcome.ok _ _ => ⟨200, true, true⟩
    | ModelOutcome.raised _ => ⟨500, true, false⟩

/-! ### Auxiliary notions used only to state and prove properties -/

/-- The string is nonempty and its first character is not whitespace. -/
def noLeadSp : List Char → Bool
  | [] => false
  | c :: _ => !isSpaceChar c

/-- The string is nonempty and neither end is whitespace, i.e. it is in
stripped form. -/
def okEnds (l : List Char) : Bool :=
  noLeadSp l && noLeadSp l.reverse

/-- Join a list of strings with single spaces; used to state that the chunks
carry exactly the sentence sequence. -/
def joinSp : List (List Char) → List Char
  | [] => []
  | [x] => x
  | x :: y :: xs => x ++ ' ' :: joinSp (y :: xs)

/-! ## Supporting lemmas -/

theorem length_dropWhile_le (p : Char → Bool) (l : List Char) :
    (l.dropWhile p).length ≤ l.length := by
  induction l with
  | nil => simp
  | cons c cs ih =>
    by_cases h : p c
    · simp [List.dropWhile, h]
      omega
    · simp [List.dropWhile, h]

theorem length_trim_le (s : List Char) : (trim s).length ≤ s.length := by
  unfold trim
  calc ((s.dropWhile isSpaceChar).reverse.dropWhile isSpaceChar).reverse.length
      = ((s.dropWhile isSpaceChar).reverse.dropWhile isSpaceChar).length := by
        rw [List.length_reverse]
    _ ≤ (s.dropWhile isSpaceChar).reverse.length := length_dropWhile_le ..
    _ = (s.dropWhile isSpaceChar).length := by rw [List.length_reverse]
    _ ≤ s.length := length_dropWhile_le ..

theorem dropWhile_eq_self_of_noLead {l : List Char} (h : noLeadSp l = true) :
    l.dropWhile isSpaceChar = l := by
  cases l with
  | nil => rfl
  | cons c cs =>
    simp only [noLeadSp, Bool.not_eq_true'] at h
    simp [List.dropWhile, h]

theorem okEnds_ne_nil {l : List Char} (h : okEnds l = true) : l ≠ [] := by
  intro hl
  subst hl
  simp [okEnds, noLeadSp] at h

theorem trim_eq_of_okEnds {l : List Char} (h : okEnds l = true) : trim l = l := by
  unfold okEnds at h
  rw [Bool.and_eq_true] at h
  obtain ⟨h1, h2⟩ := h
  unfold trim
  rw [dropWhile_eq_self_of_noLead h1, dropWhile_eq_self_of_noLead h2,
    List.reverse_reverse]

theorem head?_dropWhile_not (p : Char → Bool) (l : List Char) {c : Char}
    (h : (l.dropWhile p).head? = some c) : p c = false := by
  induction l with
  | nil => simp [List.dropWhile] at h
  | cons a as ih =>
    by_cases hp : p a
    · exact ih (by simpa [List.dropWhile, hp] using h)
    · simp [List.dropWhile, hp] at h
      subst h
      simpa using hp

theorem noLeadSp_of_ne_nil {l : List Char} (h : l.dropWhile isSpaceChar ≠ []) :
    noLeadSp (l.dropWhile isSpaceChar) = true := by
  cases hd : l.dropWhile isSpaceChar with
  | nil => exact absurd hd h
  | cons c cs =>
    have : (l.dropWhile isSpaceChar).head? = some c := by rw [hd]; rfl
    have := head?_dropWhile_not isSpaceChar l this
    simp [noLeadSp, this]

theorem reverse_head?_dropWhile (p : Char → Bool) (l : List Char)
    (h : l.dropWhile p ≠ []) : (l.dropWhile p).reverse.head? = l.reverse.head? := by
  induction l with
  | nil => simp [List.dropWhile] at h
  | cons a as ih =>
    by_cases hp : p a
    · have hd : (a :: as).dropWhile p = as.dropWhile p := by simp [List.dropWhile, hp]
      rw [hd] at h ⊢
      have has : as.dropWhile p ≠ [] := h
      rw [ih has]
      have : as ≠ [] := by
        intro hnil
        subst hnil
        simp [List.dropWhile] at has
      cases hr : as.reverse with
      | nil => exact absurd (by simpa using hr) this
      | cons r rs => simp [List.reverse_cons, hr, List.head?_append]
    · simp [List.dropWhile, hp]

theorem noLeadSp_of_head? {l : List Char} {c : Char} (h : l.head? = some c)
    (hc : isSpaceChar c = false) : noLeadSp l = true := by
  cases l with
  | nil => simp at h
  | cons a as =>
    simp at h
    subst h
    simp [noLeadSp, hc]

theorem okEnds_trim (x : List Char) (h : trim x ≠ []) : okEnds (trim x) = true := by
  have hzne : (x.dropWhile isSpaceChar).reverse.dropWhile isSpaceChar ≠ [] := by
    intro h0
    apply h
    unfold trim
    rw [h0]
    rfl
  have hyrne : (x.dropWhile isSpaceChar).reverse ≠ [] := by
    intro h0
    apply hzne
    rw [h0]
    rfl
  have hyne : x.dropWhile isSpaceChar ≠ [] := by
    intro h0
    apply hyrne
    rw [h0]
    rfl
  obtain ⟨c, hc⟩ : ∃ c, (x.dropWhile isSpaceChar).head? = some c := by
    cases hv : x.dropWhile isSpaceChar with
    | nil => exact absurd hv hyne
    | cons a as => exact ⟨a, rfl⟩
  have hcf : isSpaceChar c = false := head?_dropWhile_not isSpaceChar x hc
  have hzr : ((x.dropWhile isSpaceChar).reverse.dropWhile isSpaceChar).reverse.head?
      = some c := by
    rw [reverse_head?_dropWhile isSpaceChar _ hzne, List.reverse_reverse]
    exact hc
  unfold trim okEnds
  rw [Bool.and_eq_true]
  refine ⟨noLeadSp_of_head? hzr hcf, ?_⟩
  rw [List.reverse_reverse]
  exact noLeadSp_of_ne_nil hzne

theorem noLeadSp_head?_ex {l : List Char} (h : noLeadSp l = true) :
    ∃ c, l.head? = some c ∧ isSpaceChar c = false := by
  cases l with
  | nil => simp [noLeadSp] at h
  | cons a as =>
    simp only [noLeadSp, Bool.not_eq_true'] at h
    exact ⟨a, rfl, h⟩

theorem okEnds_join {a b : List Char} (ha : okEnds a = true) (hb : okEnds b = true) :
    okEnds (a ++ ' ' :: b) = true := by
  unfold okEnds at ha hb ⊢
  rw [Bool.and_eq_true] at ha hb ⊢
  obtain ⟨ha1, ha2⟩ := ha
  obtain ⟨hb1, hb2⟩ := hb
  constructor
  · obtain ⟨c, hc, hcf⟩ := noLeadSp_head?_ex ha1
    apply noLeadSp_of_head? (c := c) _ hcf
    cases a with
    | nil => simp at hc
    | cons x xs => simpa using hc
  · obtain ⟨d, hd, hdf⟩ := noLeadSp_head?_ex hb2
    apply noLeadSp_of_head? (c := d) _ hdf
    rw [List.reverse_append, List.reverse_cons, List.head?_append, List.head?_append, hd]
    rfl

theorem mem_sentencesOf_okEnds {t s : List Char} (h : s ∈ sentencesOf t) :
    okEnds s = true := by
  unfold sentencesOf at h
  obtain ⟨hm, hne⟩ := List.mem_filter.mp h
  obtain ⟨x, _, hx⟩ := List.mem_map.mp hm
  subst hx
  apply okEnds_trim
  intro h0
  rw [h0] at hne
  simp at hne

theorem chunkLoop_ne_nil (m : Nat) (ss : List (List Char)) :
    ∀ cur, cur ≠ [] → chunkLoop m ss cur ≠ [] := by
  induction ss with
  | nil =>
    intro cur hcur
    have : cur.isEmpty = false := by
      cases cur with
      | nil => exact absurd rfl hcur
      | cons c cs => rfl
    simp [chunkLoop, this]
  | cons s rest ih =>
    intro cur hcur
    have hie : cur.isEmpty = false := by
      cases cur with
      | nil => exact absurd rfl hcur
      | cons c cs => rfl
    by_cases hflush : cur.length + s.length > m
    · simp [chunkLoop, hflush, hie]
    · have hne2 : (if cur.isEmpty then s else cur ++ ' ' :: s) ≠ [] := by
        rw [hie]
        simp
      simpa [chunkLoop, hflush] using ih _ hne2

theorem joinSp_cons_of_ne (a : List Char) {L : List (List Char)} (h : L ≠ []) :
    joinSp (a :: L) = a ++ ' ' :: joinSp L := by
  cases L with
  | nil => exact absurd rfl h
  | cons x xs => rfl

theorem joinSp_append_cons (a b : List Char) (L : List (List Char)) :
    joinSp ((a ++ ' ' :: b) :: L) = a ++ ' ' :: joinSp (b :: L) := by
  cases L with
  | nil => rfl
  | cons x xs => simp [joinSp, List.append_assoc]

/-- The chunk loop loses no text: joined with single spaces, its output is
exactly the joined input sentences (prefixed with the pending chunk). -/
theorem chunkLoop_joinSp (m : Nat) :
    ∀ ss cur, (∀ s ∈ ss, okEnds s = true) → (cur = [] ∨ okEnds cur = true) →
    joinSp (chunkLoop m ss cur) =
      if cur.isEmpty then joinSp ss else joinSp (cur :: ss) := by
  intro ss
  induction ss with
  | nil =>
    intro cur _ hcur
    cases hcur with
    | inl h =>
      subst h
      rfl
    | inr h =>
      have hne := okEnds_ne_nil h
      have hie : cur.isEmpty = false := by
        cases cur with
        | nil => exact absurd rfl hne
        | cons c cs => rfl
      simp [chunkLoop, hie, trim_eq_of_okEnds h, joinSp]
  | cons s rest ih =>
    intro cur hss hcur
    have hs : okEnds s = true := hss s (by simp)
    have hrest : ∀ x ∈ rest, okEnds x = true := fun x hx => hss x (by simp [hx])
    have hsne : s ≠ [] := okEnds_ne_nil hs
    have hsie : s.isEmpty = false := by
      cases s with
      | nil => exact absurd rfl hsne
      | cons c cs => rfl
    have ihs : joinSp (chunkLoop m rest s) = joinSp (s :: rest) := by
      rw [ih s hrest (Or.inr hs), hsie]
      simp
    by_cases hflush : cur.length + s.length > m
    · cases hcur with
      | inl h =>
        subst h
        simpa [chunkLoop, hflush] using ihs
      | inr hoc =>
        have hcne := okEnds_ne_nil hoc
        have hcie : cur.isEmpty = false := by
          cases cur with
          | nil => exact absurd rfl hcne
          | cons c cs => rfl
        have hcl : chunkLoop m (s :: rest) cur = trim cur :: chunkLoop m rest s := by
          simp [chunkLoop, hflush, hcie]
        rw [hcl, joinSp_cons_of_ne _ (chunkLoop_ne_nil m rest s hsne), ihs,
          trim_eq_of_okEnds hoc, hcie,
          joinSp_cons_of_ne cur (by simp : (s :: rest) ≠ [])]
        simp
    · cases hcur with
      | inl h =>
        subst h
        simpa [chunkLoop, hflush] using ihs
      | inr hoc =>
        have hcne := okEnds_ne_nil hoc
        have hcie : cur.isEmpty = false := by
          cases cur with
          | nil => exact absurd rfl hcne
          | cons c cs => rfl
        have hnew : okEnds (cur ++ ' ' :: s) = true := okEnds_join hoc hs
        have hnewie : (cur ++ ' ' :: s).isEmpty = false := by
          cases cur with
          | nil => exact absurd rfl hcne
          | cons c cs => rfl
        have hcl : chunkLoop m (s :: rest) cur = chunkLoop m rest (cur ++ ' ' :: s) := by
          simp [chunkLoop, hflush, hcie]
        rw [hcl, ih (cur ++ ' ' :: s) hrest (Or.inr hnew), hnewie]
        rw [joinSp_append_cons, hcie,
          joinSp_cons_of_ne cur (by simp : (s :: rest) ≠ [])]
        simp

/-- Every chunk the loop emits is at most one character over the bound,
provided every pending sentence is within the bound and the running chunk is
within the bound plus one. -/
theorem chunkLoop_length (m : Nat) :
    ∀ ss cur, (∀ s ∈ ss, s.length ≤ m) → cur.length ≤ m + 1 →
    ∀ c ∈ chunkLoop m ss cur, c.length ≤ m + 1 := by
  intro ss
  induction ss with
  | nil =>
    intro cur _ hcur c hc
    by_cases hie : cur.isEmpty
    · simp [chunkLoop, hie] at hc
    · simp [chunkLoop, hie] at hc
      subst hc
      exact le_trans (length_trim_le cur) hcur
  | cons s rest ih =>
    intro cur hss hcur c hc
    have hs : s.length ≤ m := hss s (by simp)
    have hrest : ∀ x ∈ rest, x.length ≤ m := fun x hx => hss x (by simp [hx])
    by_cases hflush : cur.length + s.length > m
    · rw [show chunkLoop m (s :: rest) cur
          = (if cur.isEmpty then [] else [trim cur]) ++ chunkLoop m rest s by
        simp [chunkLoop, hflush]] at hc
      rcases List.mem_append.mp hc with hl | hr
      · by_cases hie : cur.isEmpty
        · simp [hie] at hl
        · simp [hie] at hl
          subst hl
          exact le_trans (length_trim_le cur) hcur
      · exact ih s hrest (le_trans hs (Nat.le_succ m)) c hr
    · rw [show chunkLoop m (s :: rest) cur
          = chunkLoop m rest (if cur.isEmpty then s else cur ++ ' ' :: s) by
        simp [chunkLoop, hflush]] at hc
      have hlen : (if cur.isEmpty then s else cur ++ ' ' :: s).length ≤ m + 1 := by
        by_cases hie : cur.isEmpty
        · simpa [hie] using le_trans hs (Nat.le_succ m)
        · simp [hie]
          omega
      exact ih _ hrest hlen c hc

theorem leadsWith_self_append (p b : List Char) : leadsWith p (p ++ b) = true := by
  induction p with
  | nil => rfl
  | cons c cs ih => simp [leadsWith, ih]

theorem containsSub_self_append (p b : List Char) : containsSub (p ++ b) p = true := by
  cases p with
  | nil =>
    cases b with
    | nil => rfl
    | cons x xs => simp [containsSub, leadsWith]
  | cons c cs =>
    have h := leadsWith_self_append (c :: cs) b
    simp only [List.cons_append] at h
    simp [containsSub, h]

theorem containsSub_append_left {y p : List Char} (x : List Char)
    (h : containsSub y p = true) : containsSub (x ++ y) p = true := by
  induction x with
  | nil => simpa using h
  | cons c cs ih => simp [containsSub, ih]

theorem all_action_items_eq_nil {t : List Char}
    (h : ∀ c ∈ make_chunks t, ∀ s ∈ sentencesOf c, sentence_is_action s = false) :
    all_action_items t = [] := by
  unfold all_action_items
  rw [List.flatMap_eq_nil_iff]
  intro c hc
  unfold chunk_actions
  rw [List.filter_eq_nil_iff]
  intro s hs
  simp [h c hc s hs]

theorem all_dates_eq_nil {t : List Char}
    (h : ∀ c ∈ make_chunks t, reFindAll date_pattern c = []) :
    all_dates t = [] := by
  unfold all_dates
  rw [List.flatMap_eq_nil_iff]
  exact h

theorem okEnds_replicate (c : Char) (n : Nat) (h : isSpaceChar c = false) :
    okEnds (List.replicate (n + 1) c) = true := by
  unfold okEnds
  rw [List.reverse_replicate, Bool.and_eq_true]
  constructor <;> simp [List.replicate_succ, noLeadSp, h]

theorem splitP_no (p : Char → Bool) : ∀ l, (∀ c ∈ l, p c = false) →
    splitP p l = [l] := by
  intro l
  induction l with
  | nil => intro _; rfl
  | cons c cs ih =>
    intro h
    have hc : p c = false := h c (by simp)
    have hcs := ih (fun x hx => h x (by simp [hx]))
    simp [splitP, hc, hcs]

theorem splitP_append_no (p : Char → Bool) : ∀ l r h t, (∀ c ∈ l, p c = false) →
    splitP p r = h :: t → splitP p (l ++ r) = (l ++ h) :: t := by
  intro l
  induction l with
  | nil =>
    intro r h t _ hr
    simpa using hr
  | cons c cs ih =>
    intro r h t hl hr
    have hc : p c = false := hl c (by simp)
    have hcs := ih r h t (fun x hx => hl x (by simp [hx])) hr
    simp [splitP, hc, hcs]

theorem splitP_delim (p : Char → Bool) (c : Char) (r : List Char)
    (hc : p c = true) : splitP p (c :: r) = [] :: splitP p r := by
  simp [splitP, hc]

theorem replicate_not_term (c : Char) (n : Nat) (h : isTermChar c = false) :
    ∀ x ∈ List.replicate n c, isTermChar x = false := by
  intro x hx
  rw [List.eq_of_mem_replicate hx]
  exact h

/-- Splitting a two-block transcript `a…a.b…b` into sentences. -/
theorem sentencesOf_two_blocks (a b : Char) (n m : Nat)
    (hta : isTermChar a = false) (htb : isTermChar b = false)
    (hsa : isSpaceChar a = false) (hsb : isSpaceChar b = false) :
    sentencesOf (List.replicate (n + 1) a ++ '.' :: List.replicate (m + 1) b)
      = [List.replicate (n + 1) a, List.replicate (m + 1) b] := by
  have hd : splitP isTermChar ('.' :: List.replicate (m + 1) b)
      = [] :: [List.replicate (m + 1) b] := by
    rw [splitP_delim _ _ _ (by decide), splitP_no _ _ (replicate_not_term b _ htb)]
  have hsplit := splitP_append_no isTermChar (List.replicate (n + 1) a) _ _ _
    (replicate_not_term a _ hta) hd
  unfold sentencesOf
  rw [hsplit]
  have ta := trim_eq_of_okEnds (okEnds_replicate a n hsa)
  have tb := trim_eq_of_okEnds (okEnds_replicate b m hsb)
  have hAne : (List.replicate (n + 1) a).isEmpty = false := by
    rw [List.replicate_succ]
    rfl
  have hBne : (List.replicate (m + 1) b).isEmpty = false := by
    rw [List.replicate_succ]
    rfl
  simp only [List.append_nil, List.map]
  rw [ta, tb]
  simp [List.filter, hAne, hBne]

/-- Splitting a one-block transcript `a…a` into sentences. -/
theorem sentencesOf_one_block (a : Char) (n : Nat)
    (hta : isTermChar a = false) (hsa : isSpaceChar a = false) :
    sentencesOf (List.replicate (n + 1) a) = [List.replicate (n + 1) a] := by
  unfold sentencesOf
  rw [splitP_no _ _ (replicate_not_term a _ hta)]
  have ta := trim_eq_of_okEnds (okEnds_replicate a n hsa)
  have hAne : (List.replicate (n + 1) a).isEmpty = false := by
    rw [List.replicate_succ]
    rfl
  simp only [List.map]
  rw [ta]
  simp [List.filter, hAne]

theorem isEmpty_false_of_ne_nil {l : List Char} (h : l ≠ []) : l.isEmpty = false := by
  cases l with
  | nil => exact absurd rfl h
  | cons c cs => rfl

theorem replicate_ne_nil (c : Char) (n : Nat) (h : n ≠ 0) :
    List.replicate n c ≠ [] := by
  intro h0
  have := congrArg List.length h0
  simp [List.length_replicate] at this
  exact h this

theorem chunkLoop_nil_ne (m : Nat) {cur : List Char} (h : cur.isEmpty = false) :
    chunkLoop m [] cur = [trim cur] := by
  simp [chunkLoop, h]

theorem chunkLoop_fit_nil (m : Nat) (s : List Char) (rest : List (List Char))
    (h : ¬ s.length > m) : chunkLoop m (s :: rest) [] = chunkLoop m rest s := by
  simp [chunkLoop, h]

theorem chunkLoop_over_nil (m : Nat) (s : List Char) (rest : List (List Char))
    (h : s.length > m) : chunkLoop m (s :: rest) [] = chunkLoop m rest s := by
  simp [chunkLoop, h]

theorem chunkLoop_fit_ne (m : Nat) (s : List Char) (rest : List (List Char))
    {cur : List Char} (hie : cur.isEmpty = false)
    (h : ¬ cur.length + s.length > m) :
    chunkLoop m (s :: rest) cur = chunkLoop m rest (cur ++ ' ' :: s) := by
  simp [chunkLoop, h, hie]

theorem chunkLoop_flush_ne (m : Nat) (s : List Char) (rest : List (List Char))
    {cur : List Char} (hie : cur.isEmpty = false)
    (h : cur.length + s.length > m) :
    chunkLoop m (s :: rest) cur = trim cur :: chunkLoop m rest s := by
  simp [chunkLoop, h, hie]

/-- Two 2000-character sentences are packed into one 4001-character chunk:
the length check of src/app.py line 235 ignores the joining space. -/
theorem make_chunks_two_2000 :
    make_chunks (List.replicate 2000 'a' ++ '.' :: List.replicate 2000 'b')
      = [List.replicate 2000 'a' ++ ' ' :: List.replicate 2000 'b'] := by
  have hs := sentencesOf_two_blocks 'a' 'b' 1999 1999
    (by decide) (by decide) (by decide) (by decide)
  norm_num at hs
  have hOA : okEnds (List.replicate 2000 'a') = true := by
    have := okEnds_replicate 'a' 1999 (by decide)
    norm_num at this
    exact this
  have hOB : okEnds (List.replicate 2000 'b') = true := by
    have := okEnds_replicate 'b' 1999 (by decide)
    norm_num at this
    exact this
  have hlA : (List.replicate 2000 'a').length = 2000 := List.length_replicate ..
  have hlB : (List.replicate 2000 'b').length = 2000 := List.length_replicate ..
  have hAie : (List.replicate 2000 'a').isEmpty = false :=
    isEmpty_false_of_ne_nil (replicate_ne_nil 'a' 2000 (by norm_num))
  have hJne : (List.replicate 2000 'a' ++ ' ' :: List.replicate 2000 'b') ≠ [] := by
    intro h0
    have h1 := (List.append_eq_nil.mp h0).2
    exact absurd h1 (List.cons_ne_nil _ _)
  unfold make_chunks
  rw [hs, chunkLoop_fit_nil _ _ _ (by rw [hlA]; decide),
    chunkLoop_fit_ne _ _ _ hAie (by rw [hlA, hlB]; decide),
    chunkLoop_nil_ne _ (isEmpty_false_of_ne_nil hJne),
    trim_eq_of_okEnds (okEnds_join hOA hOB)]

/-- A single 4001-character sentence becomes its own oversized chunk. -/
theorem make_chunks_one_4001 :
    make_chunks (List.replicate 4001 'a') = [List.replicate 4001 'a'] := by
  have hs := sentencesOf_one_block 'a' 4000 (by decide) (by decide)
  norm_num at hs
  have hOA : okEnds (List.replicate 4001 'a') = true := by
    have := okEnds_replicate 'a' 4000 (by decide)
    norm_num at this
    exact this
  have hlA : (List.replicate 4001 'a').length = 4001 := List.length_replicate ..
  have hAie : (List.replicate 4001 'a').isEmpty = false :=
    isEmpty_false_of_ne_nil (replicate_ne_nil 'a' 4001 (by norm_num))
  unfold make_chunks
  rw [hs, chunkLoop_over_nil _ _ _ (by rw [hlA]; decide),
    chunkLoop_nil_ne _ hAie, trim_eq_of_okEnds hOA]

/-- Two 3000-character sentences do not fit together: the loop flushes and
produces two chunks. -/
theorem make_chunks_two_3000 :
    make_chunks (List.replicate 3000 'a' ++ '.' :: List.replicate 3000 'b')
      = [List.replicate 3000 'a', List.replicate 3000 'b'] := by
  have hs := sentencesOf_two_blocks 'a' 'b' 2999 2999
    (by decide) (by decide) (by decide) (by decide)
  norm_num at hs
  have hOA : okEnds (List.replicate 3000 'a') = true := by
    have := okEnds_replicate 'a' 2999 (by decide)
    norm_num at this
    exact this
  have hOB : okEnds (List.replicate 3000 'b') = true := by
    have := okEnds_replicate 'b' 2999 (by decide)
    norm_num at this
    exact this
  have hlA : (List.replicate 3000 'a').length = 3000 := List.length_replicate ..
  have hlB : (List.replicate 3000 'b').length = 3000 := List.length_replicate ..
  have hAie : (List.replicate 3000 'a').isEmpty = false :=
    isEmpty_false_of_ne_nil (replicate_ne_nil 'a' 3000 (by norm_num))
  have hBie : (List.replicate 3000 'b').isEmpty = false :=
    isEmpty_false_of_ne_nil (replicate_ne_nil 'b' 3000 (by norm_num))
  unfold make_chunks
  rw [hs, chunkLoop_fit_nil _ _ _ (by rw [hlA]; decide),
    chunkLoop_flush_ne _ _ _ hAie (by rw [hlA, hlB]; decide),
    trim_eq_of_okEnds hOA, chunkLoop_nil_ne _ hBie, trim_eq_of_okEnds hOB]

/-- The discrete watcher flag: still recording exactly below the
threshold. -/
theorem recordingAfter_eq (n : Nat) :
    recordingAfter n = decide (n < SILENCE_THRESHOLD) := by
  induction n with
  | zero => simp [recordingAfter, SILENCE_THRESHOLD]
  | succ k ih =>
    rw [recordingAfter, ih]
    unfold watcherCheck
    by_cases h1 : SILENCE_THRESHOLD ≤ k + 1
    · by_cases h2 : k < SILENCE_THRESHOLD
      · have : ¬ (k + 1 < SILENCE_THRESHOLD) := by omega
        simp [h1, h2, this]
      · have : ¬ (k + 1 < SILENCE_THRESHOLD) := by omega
        simp [h1, h2, this]
    · have h2 : k < SILENCE_THRESHOLD := by omega
      have h3 : k + 1 < SILENCE_THRESHOLD := by omega
      simp [h1, h2, h3]

/-! ## Claim theorems -/

/-- C1: the claim says the temporary file is removed on every exit path of
`transcribe_audio`.  The code only unlinks on the straight-line success path:
with an audio file present but the model unavailable, and with the model
raising, the handler returns 500 with the temporary file still on disk; only
the success path deletes it. -/
theorem transcribe_audio_temp_leak :
    transcribe_audio ⟨true, false, ModelOutcome.ok [] []⟩
      = ⟨500, true, false⟩ ∧
    transcribe_audio ⟨true, true, ModelOutcome.raised (("boom").data)⟩
      = ⟨500, true, false⟩ ∧
    transcribe_audio ⟨true, true, ModelOutcome.ok (("hi").data) (("en").data)⟩
      = ⟨200, true, true⟩ :=
  ⟨rfl, rfl, rfl⟩

/-- C2 (counterexample): on the example transcript the single action item is
not the sentence "John will prepare the report". -/
theorem action_item_text_differs :
    ¬ (all_action_items (("John will prepare the report. The weather is nice.").data)
      = [("John will prepare the report").data]) := by
  decide

/-- C2 (amended): the example yields exactly one action item, namely the
whole chunk "John will prepare the report The weather is nice" — chunking
joins sentences with spaces and drops the punctuation, so re-splitting the
chunk returns it whole; in general a chunk-level sentence is an action item
iff it case-insensitively contains a cue word. -/
theorem action_items_merged_chunk :
    all_action_items (("John will prepare the report. The weather is nice.").data)
      = [("John will prepare the report The weather is nice").data] ∧
    ∀ c s, s ∈ chunk_actions c ↔ (s ∈ sentencesOf c ∧ sentence_is_action s = true) := by
  constructor
  · decide
  · intro c s
    unfold chunk_actions
    constructor
    · intro h
      exact List.mem_filter.mp h
    · intro h
      exact List.mem_filter.mpr h

/-- C3 (counterexample): two 2000-character sentences satisfy the premise but
are packed into a single 4001-character chunk, exceeding the 4000 bound. -/
theorem chunk_exceeds_bound :
    (∀ s ∈ sentencesOf (List.replicate 2000 'a' ++ '.' :: List.replicate 2000 'b'),
      s.length ≤ MAX_CHARS_PER_CHUNK) ∧
    ¬ (∀ c ∈ make_chunks (List.replicate 2000 'a' ++ '.' :: List.replicate 2000 'b'),
      c.length ≤ MAX_CHARS_PER_CHUNK) := by
  have hs := sentencesOf_two_blocks 'a' 'b' 1999 1999
    (by decide) (by decide) (by decide) (by decide)
  norm_num at hs
  constructor
  · intro s hsm
    rw [hs] at hsm
    cases hsm with
    | head => rw [List.length_replicate]; decide
    | tail _ h2 =>
      cases h2 with
      | head => rw [List.length_replicate]; decide
      | tail _ h3 => cases h3
  · intro hall
    have hmem : (List.replicate 2000 'a' ++ ' ' :: List.replicate 2000 'b')
        ∈ make_chunks (List.replicate 2000 'a' ++ '.' :: List.replicate 2000 'b') := by
      rw [make_chunks_two_2000]
      exact List.Mem.head _
    have hlen := hall _ hmem
    rw [List.length_append, List.length_cons, List.length_replicate,
      List.length_replicate] at hlen
    revert hlen
    decide

/-- C3 (amended): when every sentence is at most 4000 characters, every
chunk is at most 4001 characters — one over the documented bound, because
the length check ignores the single space inserted between sentences. -/
theorem chunks_le_bound_succ (t : List Char)
    (h : ∀ s ∈ sentencesOf t, s.length ≤ MAX_CHARS_PER_CHUNK) :
    ∀ c ∈ make_chunks t, c.length ≤ MAX_CHARS_PER_CHUNK + 1 :=
  chunkLoop_length MAX_CHARS_PER_CHUNK (sentencesOf t) [] h (by simp)

/-- C3 (witness): the theorem applied to the transcript "Hi. Yo.", whose
single chunk is "Hi Yo". -/
theorem chunks_le_bound_succ_witness :
    (("Hi Yo").data).length ≤ MAX_CHARS_PER_CHUNK + 1 :=
  chunks_le_bound_succ (("Hi. Yo.").data) (by decide) (("Hi Yo").data) (by decide)

/-- C4 (counterexample): a transcript of 4001 identical letters exceeds the
bound yet produces exactly one (oversized) chunk, since it contains a single
sentence. -/
theorem long_transcript_single_chunk :
    (List.replicate 4001 'a').length > MAX_CHARS_PER_CHUNK ∧
    ¬ (1 < (make_chunks (List.replicate 4001 'a')).length) := by
  constructor
  · rw [List.length_replicate]
    decide
  · rw [make_chunks_one_4001, List.length_cons, List.length_nil]
    decide

/-- C4 (amended): joining the chunks with single spaces reproduces exactly
the sentence sequence joined with single spaces; and a transcript whose
sentences are individually within the 4000 bound but jointly longer than
4001 characters produces more than one chunk.  (Total transcript length
alone is not enough: an oversized single sentence stays one chunk.) -/
theorem chunking_join_and_split (t : List Char) :
    joinSp (make_chunks t) = joinSp (sentencesOf t) ∧
    ((∀ s ∈ sentencesOf t, s.length ≤ MAX_CHARS_PER_CHUNK) →
      MAX_CHARS_PER_CHUNK + 1 < (joinSp (sentencesOf t)).length →
      1 < (make_chunks t).length) := by
  have hjoin : joinSp (make_chunks t) = joinSp (sentencesOf t) := by
    have h := chunkLoop_joinSp MAX_CHARS_PER_CHUNK (sentencesOf t) []
      (fun s hs => mem_sentencesOf_okEnds hs) (Or.inl rfl)
    simpa [make_chunks] using h
  refine ⟨hjoin, ?_⟩
  intro hlen hbig
  rcases hch : make_chunks t with _ | ⟨c, cs⟩
  · rw [hch] at hjoin
    rw [← hjoin] at hbig
    simp [joinSp] at hbig
  · rcases cs with _ | ⟨c2, cs2⟩
    · have hmem : c ∈ make_chunks t := by
        rw [hch]
        simp
      have hc : c.length ≤ MAX_CHARS_PER_CHUNK + 1 :=
        chunkLoop_length MAX_CHARS_PER_CHUNK (sentencesOf t) [] hlen (by simp) c hmem
      rw [hch] at hjoin
      have h1 : joinSp [c] = c := rfl
      rw [h1] at hjoin
      rw [← hjoin] at hbig
      omega
    · rw [List.length_cons, List.length_cons]
      omega

/-- C4 (witness): the theorem applied to two 3000-character sentences, which
produce two chunks whose joined text is the joined sentence sequence. -/
theorem chunking_join_and_split_witness :
    1 < (make_chunks (List.replicate 3000 'a' ++ '.' :: List.replicate 3000 'b')).length ∧
    joinSp (make_chunks (List.replicate 3000 'a' ++ '.' :: List.replicate 3000 'b'))
      = joinSp (sentencesOf (List.replicate 3000 'a' ++ '.' :: List.replicate 3000 'b')) := by
  have hthm := chunking_join_and_split
    (List.replicate 3000 'a' ++ '.' :: List.replicate 3000 'b')
  have hs := sentencesOf_two_blocks 'a' 'b' 2999 2999
    (by decide) (by decide) (by decide) (by decide)
  norm_num at hs
  refine ⟨hthm.2 ?_ ?_, hthm.1⟩
  · intro s hsm
    rw [hs] at hsm
    cases hsm with
    | head => rw [List.length_replicate]; decide
    | tail _ h2 =>
      cases h2 with
      | head => rw [List.length_replicate]; decide
      | tail _ h3 => cases h3
  · rw [hs]
    have h1 : joinSp [List.replicate 3000 'a', List.replicate 3000 'b']
        = List.replicate 3000 'a' ++ ' ' :: List.replicate 3000 'b' := rfl
    rw [h1, List.length_append, List.length_cons, List.length_replicate,
      List.length_replicate]
    decide

/-- C5: starting while already recording returns the 400 "Already recording"
error and leaves the state unchanged, with the status still "recording" for
the original session; stopping while idle returns the 400 "Not recording"
error and the status stays "idle". -/
theorem start_stop_guard :
    (∀ st sess i t0 n, st.is_recording = true → st.current_session = some sess →
      (start_recording st i t0 n).1 = ⟨400, ("Already recording").data⟩ ∧
      (start_recording st i t0 n).2 = st ∧
      get_status st = (("recording").data, some sess.id)) ∧
    (∀ st, st.is_recording = false →
      (stop_recording st).1 = ⟨400, ("Not recording").data⟩ ∧
      (stop_recording st).2 = st ∧
      get_status st = (("idle").data, none)) := by
  constructor
  · intro st sess i t0 n h hsess
    refine ⟨?_, ?_, ?_⟩
    · simp [start_recording, h]
    · simp [start_recording, h]
    · simp [get_status, h, hsess]
  · intro st h
    refine ⟨?_, ?_, ?_⟩
    · simp [stop_recording, h]
    · simp [stop_recording, h]
    · simp [get_status, h]

/-- C5 (witness): the guards evaluated on a concrete recording state and a
concrete idle state. -/
theorem start_stop_guard_witness :
    (start_recording ⟨some ⟨("s1").data, ("t1").data⟩, true, some 5⟩
        (("s2").data) (("t2").data) 9).2
      = ⟨some ⟨("s1").data, ("t1").data⟩, true, some 5⟩ ∧
    get_status ⟨some ⟨("s1").data, ("t1").data⟩, true, some 5⟩
      = (("recording").data, some (("s1").data)) ∧
    (stop_recording ⟨none, false, none⟩).1 = ⟨400, ("Not recording").data⟩ :=
  ⟨(start_stop_guard.1 ⟨some ⟨("s1").data, ("t1").data⟩, true, some 5⟩
      ⟨("s1").data, ("t1").data⟩ (("s2").data) (("t2").data) 9 rfl rfl).2.1,
   (start_stop_guard.1 ⟨some ⟨("s1").data, ("t1").data⟩, true, some 5⟩
      ⟨("s1").data, ("t1").data⟩ (("s2").data) (("t2").data) 9 rfl rfl).2.2,
   (start_stop_guard.2 ⟨none, false, none⟩ rfl).1⟩

/-- C6: in the discrete-time model of the watcher loop (one check per time
unit), an un-stopped session reports "recording" strictly below the
30-unit threshold and "idle" from the threshold check onwards — the flip
happens at the first check at or past the threshold, i.e. within one polling
interval. -/
theorem auto_stop_within_interval (n : Nat) :
    (SILENCE_THRESHOLD ≤ n → statusAfter n = ("idle").data) ∧
    (n < SILENCE_THRESHOLD → statusAfter n = ("recording").data) := by
  constructor
  · intro h
    unfold statusAfter
    rw [recordingAfter_eq]
    have h2 : ¬ (n < SILENCE_THRESHOLD) := by omega
    simp [h2]
  · intro h
    unfold statusAfter
    rw [recordingAfter_eq]
    simp [h]

/-- C6 (witness): the status exactly at the threshold and one tick before. -/
theorem auto_stop_within_interval_witness :
    statusAfter SILENCE_THRESHOLD = ("idle").data ∧
    statusAfter 29 = ("recording").data :=
  ⟨(auto_stop_within_interval SILENCE_THRESHOLD).1 (le_refl _),
   (auto_stop_within_interval 29).2 (by decide)⟩

/-- C7: minutes generation is a pure function of the transcript and the
injected current date, so two runs with the same transcript and the same
fixed date produce identical output. -/
theorem generate_minutes_deterministic (t d1 d2 : List Char) (h : d1 = d2) :
    generate_minutes_from_transcript t d1 = generate_minutes_from_transcript t d2 := by
  rw [h]

/-- C7 (witness): determinism instantiated at a concrete transcript and
date. -/
theorem generate_minutes_deterministic_witness :
    generate_minutes_from_transcript (("Hi.").data) (("May 1, 2020").data)
      = generate_minutes_from_transcript (("Hi.").data) (("May 1, 2020").data) :=
  generate_minutes_deterministic (("Hi.").data) (("May 1, 2020").data)
    (("May 1, 2020").data) rfl

/-- C8: on the example transcript, date extraction returns exactly the two
matches "3/15/2024" and "March 5, 2024", in order. -/
theorem date_extraction_example :
    all_dates (("The deadline is 3/15/2024 and also March 5, 2024").data)
      = [("3/15/2024").data, ("March 5, 2024").data] := by
  decide

/-- C9 (counterexample): "We need. To go." is non-empty and none of its
sentences contains a cue word, yet the generated minutes do not contain the
action-items placeholder: the chunk joins the sentences into
"We need To go", whose lowercase form contains "need to". -/
theorem cue_across_sentence_join :
    (("We need. To go.").data ≠ []) ∧
    (∀ s ∈ sentencesOf (("We need. To go.").data), sentence_is_action s = false) ∧
    containsSub (generate_minutes_from_transcript (("We need. To go.").data)
      (("October 12, 2025").data)) NO_ACTIONS_LINE = false := by
  refine ⟨by decide, by decide, by decide⟩

/-- C9 (amended): the placeholder lines are guaranteed when the *chunk-level*
re-split sentences contain no cue word (resp. when no chunk matches the date
pattern); the original sentence-level condition is defeated by cue words
formed across the space-joins.  Neither section is ever empty: with no
matches the placeholder is rendered instead. -/
theorem placeholder_lines_render (t d : List Char) (_ht : t ≠ []) :
    ((∀ c ∈ make_chunks t, ∀ s ∈ sentencesOf c, sentence_is_action s = false) →
      containsSub (generate_minutes_from_transcript t d) NO_ACTIONS_LINE = true) ∧
    ((∀ c ∈ make_chunks t, reFindAll date_pattern c = []) →
      containsSub (generate_minutes_from_transcript t d) NO_DATES_LINE = true) := by
  constructor
  · intro h
    have he := all_action_items_eq_nil h
    unfold generate_minutes_from_transcript
    rw [he]
    rw [show actionLines [] = NO_ACTIONS_LINE from rfl]
    simp only [List.append_assoc]
    apply containsSub_append_left
    apply containsSub_append_left
    apply containsSub_append_left
    apply containsSub_append_left
    apply containsSub_append_left
    apply containsSub_append_left
    apply containsSub_append_left
    apply containsSub_append_left
    apply containsSub_append_left
    exact containsSub_self_append ..
  · intro h
    have he := all_dates_eq_nil h
    unfold generate_minutes_from_transcript
    rw [he]
    rw [show dateLines [] = NO_DATES_LINE from rfl]
    simp only [List.append_assoc]
    apply containsSub_append_left
    apply containsSub_append_left
    apply containsSub_append_left
    apply containsSub_append_left
    apply containsSub_append_left
    apply containsSub_append_left
    apply containsSub_append_left
    apply containsSub_append_left
    apply containsSub_append_left
    apply containsSub_append_left
    apply containsSub_append_left
    apply containsSub_append_left
    apply containsSub_append_left
    exact containsSub_self_append ..

/-- C9 (witness): both placeholders appear for "Nothing here.", which has no
cue words and no dates. -/
theorem placeholder_lines_render_witness :
    containsSub (generate_minutes_from_transcript (("Nothing here.").data)
      (("January 1, 2000").data)) NO_ACTIONS_LINE = true ∧
    containsSub (generate_minutes_from_transcript (("Nothing here.").data)
      (("January 1, 2000").data)) NO_DATES_LINE = true :=
  ⟨(placeholder_lines_render (("Nothing here.").data) (("January 1, 2000").data)
      (by decide)).1 (by decide),
   (placeholder_lines_render (("Nothing here.").data) (("January 1, 2000").data)
      (by decide)).2 (by decide)⟩

/-- C10: action-item classification is raw substring containment on the
lowercased sentence: any sentence whose lowercase form contains a cue word —
even embedded inside a longer word — is classified as an action item. -/
theorem cue_substring_classifies (s w : List Char) (hw : w ∈ action_words)
    (hc : containsSub (toLowerAscii s) w = true) : sentence_is_action s = true := by
  unfold sentence_is_action
  exact List.any_eq_true.mpr ⟨w, hw, hc⟩

/-- C10 (witness): "The willow bends" contains "will" only inside "willow"
and is still classified as an action item. -/
theorem cue_substring_classifies_witness :
    sentence_is_action (("The willow bends").data) = true :=
  cue_substring_classifies (("The willow bends").data) (("will").data)
    (by decide) (by decide)

end MinuteMate

